import Mathlib

/-!
Verification of the SUGARBEAR step-sequencer core: a shallow embedding of
the Pattern data model (src/types/sequencer.types), the gain clamp
(src/types/audio.types.ts), the Scheduler lookahead loop (Scheduler source),
and the Sequencer transport and tick logic (src/sequencer/Sequencer.ts),
together with proofs of the specified properties.

Numbers that are IEEE doubles in the source are modelled as rationals;
JavaScript Date values are modelled as natural-number timestamps supplied
explicitly to the operations that call new Date().
-/

/-- Clamp from audio.types.ts: gainValue returns max(0, min(1, value)). -/
def gainValue (value : ℚ) : ℚ := max 0 (min 1 value)

/-- Step state (sequencer.types): whether a step is active and its velocity. -/
structure Step where
  active : Bool
  velocity : ℚ
  deriving Repr, DecidableEq

/-- Track in the sequencer (sequencer.types). -/
structure Track where
  id : String
  name : String
  sampleId : String
  steps : List Step
  volume : ℚ
  muted : Bool
  soloed : Bool
  color : String
  deriving Repr, DecidableEq

/-- Time signature (sequencer.types). -/
structure TimeSignature where
  numerator : ℕ
  denominator : ℕ
  deriving Repr, DecidableEq

/-- Pattern: a collection of tracks forming a sequence (sequencer.types). -/
structure Pattern where
  id : String
  name : String
  tracks : List Track
  length : ℕ
  timeSignature : TimeSignature
  createdAt : ℕ
  modifiedAt : ℕ
  deriving Repr, DecidableEq

/-- The per-track function mapped over tracks by toggleStep: on the track
whose id matches, flips the active flag of step stepIdx. -/
def toggleTrackStepFn (trackId : String) (stepIdx : ℕ) (track : Track) : Track :=
  if track.id = trackId then
    { track with
      steps := track.steps.mapIdx fun idx s =>
        if idx = stepIdx then { s with active := !s.active } else s }
  else track

/-- The per-track function mapped over tracks by setStepVelocity. -/
def setTrackStepVelocityFn (trackId : String) (stepIdx : ℕ) (velocity : ℚ)
    (track : Track) : Track :=
  if track.id = trackId then
    { track with
      steps := track.steps.mapIdx fun idx s =>
        if idx = stepIdx then { s with velocity := velocity } else s }
  else track

/-- The per-track function mapped over tracks by setTrackVolume. -/
def setTrackVolumeFn (trackId : String) (volume : ℚ) (track : Track) : Track :=
  if track.id = trackId then { track with volume := volume } else track

/-- The per-track function mapped over tracks by toggleTrackMute. -/
def toggleTrackMuteFn (trackId : String) (track : Track) : Track :=
  if track.id = trackId then { track with muted := !track.muted } else track

/-- The per-track function mapped over tracks by toggleTrackSolo. -/
def toggleTrackSoloFn (trackId : String) (track : Track) : Track :=
  if track.id = trackId then { track with soloed := !track.soloed } else track

/-- Pattern-model toggleStep (sequencer.types): flips the active flag of
step stepIdx of the track whose id matches, refreshing modifiedAt.
The timestamp of new Date() is passed in as the argument now. -/
def toggleStep (pattern : Pattern) (trackId : String) (stepIdx : ℕ) (now : ℕ) :
    Pattern :=
  { pattern with
    tracks := pattern.tracks.map (toggleTrackStepFn trackId stepIdx)
    modifiedAt := now }

/-- Pattern-model setStepVelocity (sequencer.types). -/
def setStepVelocity (pattern : Pattern) (trackId : String) (stepIdx : ℕ)
    (velocity : ℚ) (now : ℕ) : Pattern :=
  { pattern with
    tracks := pattern.tracks.map (setTrackStepVelocityFn trackId stepIdx velocity)
    modifiedAt := now }

/-- Pattern-model setTrackVolume (sequencer.types). -/
def setTrackVolume (pattern : Pattern) (trackId : String) (volume : ℚ)
    (now : ℕ) : Pattern :=
  { pattern with
    tracks := pattern.tracks.map (setTrackVolumeFn trackId volume)
    modifiedAt := now }

/-- Pattern-model toggleTrackMute (sequencer.types). -/
def toggleTrackMute (pattern : Pattern) (trackId : String) (now : ℕ) : Pattern :=
  { pattern with
    tracks := pattern.tracks.map (toggleTrackMuteFn trackId)
    modifiedAt := now }

/-- Pattern-model toggleTrackSolo (sequencer.types). -/
def toggleTrackSolo (pattern : Pattern) (trackId : String) (now : ℕ) : Pattern :=
  { pattern with
    tracks := pattern.tracks.map (toggleTrackSoloFn trackId)
    modifiedAt := now }

/-- Double indexed map collapses to a single indexed map. -/
theorem mapIdx_mapIdx {α : Type} (l : List α) (f g : ℕ → α → α) :
    (l.mapIdx f).mapIdx g = l.mapIdx fun i a => g i (f i a) := by
  apply List.ext_get
  · simp
  · intro i h1 h2
    simp [List.get_mapIdx]

/-- An indexed map whose function returns the element unchanged is the list. -/
theorem mapIdx_id {α : Type} (l : List α) : (l.mapIdx fun _ a => a) = l := by
  apply List.ext_get
  · simp
  · intro i h1 h2
    simp [List.get_mapIdx]

/-- Applying the per-track step-toggle function twice restores the track. -/
theorem toggleTrackStepFn_invol (t : String) (i : ℕ) (track : Track) :
    toggleTrackStepFn t i (toggleTrackStepFn t i track) = track := by
  obtain ⟨tid, tname, tsample, tsteps, tvol, tmut, tsol, tcol⟩ := track
  by_cases h : tid = t
  · simp only [toggleTrackStepFn, h, if_pos, mapIdx_mapIdx]
    have hfun : (fun (idx : ℕ) (s : Step) =>
        if idx = i then
          { (if idx = i then { s with active := !s.active } else s) with
            active := !(if idx = i then { s with active := !s.active } else s).active }
        else (if idx = i then { s with active := !s.active } else s)) =
        fun _ s => s := by
      funext idx s
      by_cases hidx : idx = i <;> simp [hidx]
    rw [hfun, mapIdx_id]
  · simp [toggleTrackStepFn, h]

/-- C8: toggling the same step of the same track twice restores the Pattern
except for its modifiedAt field: every track, step, active flag, velocity
and all top-level metadata are as in the original. -/
theorem spec_C8_toggleStep_involution (p : Pattern) (t : String) (i n1 n2 : ℕ)
    (hmem : t ∈ p.tracks.map Track.id) (hi : i < p.length) :
    toggleStep (toggleStep p t i n1) t i n2 = { p with modifiedAt := n2 } := by
  simp only [toggleStep, List.map_map]
  congr 1
  have : p.tracks.map (toggleTrackStepFn t i ∘ toggleTrackStepFn t i) =
      p.tracks.map id :=
    List.map_congr_left fun track _ => toggleTrackStepFn_invol t i track
  rw [this, List.map_id]

/-- Witness for C8 at a concrete Pattern, track and index. -/
theorem spec_C8_toggleStep_involution_witness :
    toggleStep
      (toggleStep
        { id := "p1", name := "pat",
          tracks := [{ id := "kick", name := "Kick", sampleId := "kick",
                       steps := [{ active := true, velocity := 4/5 },
                                 { active := false, velocity := 1/2 }],
                       volume := 4/5, muted := false, soloed := false,
                       color := "#fff" }],
          length := 2, timeSignature := { numerator := 4, denominator := 4 },
          createdAt := 0, modifiedAt := 0 } "kick" 1 7) "kick" 1 9 =
    { id := "p1", name := "pat",
      tracks := [{ id := "kick", name := "Kick", sampleId := "kick",
                   steps := [{ active := true, velocity := 4/5 },
                             { active := false, velocity := 1/2 }],
                   volume := 4/5, muted := false, soloed := false,
                   color := "#fff" }],
      length := 2, timeSignature := { numerator := 4, denominator := 4 },
      createdAt := 0, modifiedAt := 9 } := by
  apply spec_C8_toggleStep_involution
  · decide
  · decide

/-!
Scheduler (Scheduler source file): lookahead scheduling loop. The state
carries the tempo, the lookahead window, the next scheduled note time and
the current beat position. The wall clock value read from the audio
context at each poll pass is supplied as the argument now.
-/

/-- Scheduler timing state. -/
structure SchedulerState where
  bpm : ℚ
  lookahead : ℚ
  nextNoteTime : ℚ
  currentBeat : ℚ
  deriving Repr, DecidableEq

/-- Seconds per sixteenth note at the given tempo, from advanceNote:
secondsPerBeat = 60 / bpm, secondsPerSixteenth = secondsPerBeat / 4. -/
def secondsPerSixteenth (b : ℚ) : ℚ := 60 / b / 4

/-- advanceNote: advance time by one sixteenth and the beat by 0.25. -/
def advanceNote (s : SchedulerState) : SchedulerState :=
  { s with
    nextNoteTime := s.nextNoteTime + secondsPerSixteenth s.bpm
    currentBeat := s.currentBeat + 1/4 }

/-- scheduleLoop: one poll pass. While nextNoteTime lies inside the
lookahead window past now, emit a (time, beat) tick and advance; returns
the emitted ticks in order together with the final state. Termination
requires a positive tempo, which the BPM range [60, 200] guarantees. -/
def scheduleLoop (now : ℚ) (s : SchedulerState) (hb : 0 < s.bpm) :
    List (ℚ × ℚ) × SchedulerState :=
  if h : s.nextNoteTime < now + s.lookahead then
    let rest := scheduleLoop now (advanceNote s) (by simpa [advanceNote] using hb)
    ((s.nextNoteTime, s.currentBeat) :: rest.1, rest.2)
  else ([], s)
termination_by (⌈(now + s.lookahead - s.nextNoteTime) / secondsPerSixteenth s.bpm⌉).toNat
decreasing_by
  simp only [advanceNote]
  have hd : 0 < secondsPerSixteenth s.bpm := by
    unfold secondsPerSixteenth
    positivity
  have hx : 0 < (now + s.lookahead - s.nextNoteTime) / secondsPerSixteenth s.bpm := by
    apply div_pos
    · linarith
    · exact hd
  have harg : (now + s.lookahead - (s.nextNoteTime + secondsPerSixteenth s.bpm)) /
      secondsPerSixteenth s.bpm =
      (now + s.lookahead - s.nextNoteTime) / secondsPerSixteenth s.bpm - 1 := by
    field_simp
    ring
  rw [harg, Int.ceil_sub_one]
  have hpos : 0 < ⌈(now + s.lookahead - s.nextNoteTime) / secondsPerSixteenth s.bpm⌉ :=
    Int.ceil_pos.mpr hx
  omega

/-- The arithmetic tick sequence: n ticks starting at time t and beat c,
advancing by d seconds and a quarter beat each. -/
def tickSeq (t c d : ℚ) : ℕ → List (ℚ × ℚ)
  | 0 => []
  | n + 1 => (t, c) :: tickSeq (t + d) (c + 1/4) d n

/-- A poll pass emits an arithmetic tick sequence starting at the state's
nextNoteTime and currentBeat, and advances the state by its length. -/
theorem scheduleLoop_spec (now : ℚ) (s : SchedulerState) (hb : 0 < s.bpm) :
    ∃ n : ℕ,
      (scheduleLoop now s hb).1 =
        tickSeq s.nextNoteTime s.currentBeat (secondsPerSixteenth s.bpm) n ∧
      (scheduleLoop now s hb).2 =
        { s with
          nextNoteTime := s.nextNoteTime + n * secondsPerSixteenth s.bpm
          currentBeat := s.currentBeat + n * (1/4) } := by
  induction s, hb using scheduleLoop.induct now with
  | case1 s hb h ih =>
    obtain ⟨n, h1, h2⟩ := ih
    simp only [advanceNote] at h1 h2
    refine ⟨n + 1, ?_, ?_⟩
    · rw [scheduleLoop, dif_pos h]
      simp only [tickSeq]
      exact congrArg (List.cons (s.nextNoteTime, s.currentBeat)) h1
    · rw [scheduleLoop, dif_pos h]
      refine h2.trans ?_
      congr 1 <;> (push_cast; ring)
  | case2 s hb h =>
    refine ⟨0, ?_, ?_⟩
    · rw [scheduleLoop, dif_neg h]
      rfl
    · rw [scheduleLoop, dif_neg h]
      simp

/-- A poll pass never changes the tempo. -/
theorem scheduleLoop_bpm (now : ℚ) (s : SchedulerState) (hb : 0 < s.bpm) :
    ((scheduleLoop now s hb).2).bpm = s.bpm := by
  obtain ⟨n, _, h2⟩ := scheduleLoop_spec now s hb
  rw [h2]

/-- Positivity of the tempo survives a poll pass. -/
theorem scheduleLoop_bpm_pos (now : ℚ) (s : SchedulerState) (hb : 0 < s.bpm) :
    0 < ((scheduleLoop now s hb).2).bpm := by
  rw [scheduleLoop_bpm]
  exact hb

/-- Repeated polling at an arbitrary list of wall clock instants: runs one
scheduleLoop pass per poll, concatenating the emitted ticks. -/
def runPolls : List ℚ → (s : SchedulerState) → 0 < s.bpm →
    List (ℚ × ℚ) × SchedulerState
  | [], s, _ => ([], s)
  | now :: rest, s, hb =>
    ((scheduleLoop now s hb).1 ++
      (runPolls rest (scheduleLoop now s hb).2 (scheduleLoop_bpm_pos now s hb)).1,
     (runPolls rest (scheduleLoop now s hb).2 (scheduleLoop_bpm_pos now s hb)).2)

/-- Concatenation law for arithmetic tick sequences. -/
theorem tickSeq_append (d : ℚ) (n m : ℕ) :
    ∀ t c : ℚ, tickSeq t c d (n + m) =
      tickSeq t c d n ++ tickSeq (t + n * d) (c + n * (1/4)) d m := by
  induction n with
  | zero =>
    intro t c
    simp [tickSeq]
  | succ k ih =>
    intro t c
    have hn : k + 1 + m = (k + m) + 1 := by omega
    rw [hn]
    simp only [tickSeq, List.cons_append]
    rw [ih (t + d) (c + 1/4)]
    congr 2 <;> (push_cast; ring)

/-- The ticks emitted over any sequence of poll passes form one arithmetic
tick sequence at the fixed step of the starting state. -/
theorem runPolls_spec (polls : List ℚ) :
    ∀ (s : SchedulerState) (hb : 0 < s.bpm),
      ∃ n : ℕ,
        (runPolls polls s hb).1 =
          tickSeq s.nextNoteTime s.currentBeat (secondsPerSixteenth s.bpm) n := by
  induction polls with
  | nil =>
    intro s hb
    exact ⟨0, rfl⟩
  | cons now rest ih =>
    intro s hb
    obtain ⟨n1, e1, hst⟩ := scheduleLoop_spec now s hb
    obtain ⟨n2, e2⟩ := ih (scheduleLoop now s hb).2 (scheduleLoop_bpm_pos now s hb)
    refine ⟨n1 + n2, ?_⟩
    show (scheduleLoop now s hb).1 ++ _ = _
    rw [e1, e2, hst]
    simp only
    rw [tickSeq_append]

/-- Consecutive entries of an arithmetic tick sequence differ by d. -/
theorem tickSeq_chain (d : ℚ) (n : ℕ) :
    ∀ t c : ℚ, List.Chain' (fun x y => y = x + d) ((tickSeq t c d n).map Prod.fst) := by
  induction n with
  | zero =>
    intro t c
    simp [tickSeq]
  | succ k ih =>
    intro t c
    simp only [tickSeq, List.map_cons]
    refine List.Chain'.cons' ?_ ?_
    · exact ih (t + d) (c + 1/4)
    · intro y hy
      cases k with
      | zero => simp [tickSeq] at hy
      | succ j =>
        simp only [tickSeq, List.map_cons, List.head?_cons, Option.mem_def,
          Option.some.injEq] at hy
        linarith

/-- C1: with the tempo b in [60, 200] held fixed, the schedule times passed
to the tick callback over any sequence of poll passes form an arithmetic
sequence of step 60 / (4 b) seconds, independent of when polling fires and
of how many ticks each pass flushes. -/
theorem spec_C1_tick_interval (b : ℚ) (s : SchedulerState) (polls : List ℚ)
    (hb : 0 < s.bpm) (hlo : 60 ≤ b) (hhi : b ≤ 200) (hsb : s.bpm = b) :
    List.Chain' (fun x y => y = x + 60 / (4 * b))
      ((runPolls polls s hb).1.map Prod.fst) := by
  obtain ⟨n, he⟩ := runPolls_spec polls s hb
  rw [he]
  have hd : secondsPerSixteenth s.bpm = 60 / (4 * b) := by
    rw [hsb]
    unfold secondsPerSixteenth
    rw [div_div, mul_comm]
  rw [hd]
  exact tickSeq_chain _ n _ _

/-- Witness for C1: tempo 120, lookahead 0.1 s, polls at 0 s and 0.25 s. -/
theorem spec_C1_tick_interval_witness :
    List.Chain' (fun x y => y = x + 60 / (4 * 120))
      ((runPolls [0, 1/4] ⟨120, 1/10, 0, 0⟩ (by norm_num)).1.map Prod.fst) := by
  exact spec_C1_tick_interval 120 _ _ _ (by norm_num) (by norm_num) rfl

/-!
Sequencer (src/sequencer/Sequencer.ts): transport state machine, pattern
editing, solo-set cache, and the Scheduler tick handler. External effects
(console logging, the Scheduler start/stop calls, the audio clock, the
playVoice calls) are modelled by explicit parameters and by returning the
list of issued voice-trigger commands, each paired with the track whose
loop iteration issued it.
-/

/-- Playback status values of transport.types. -/
inductive PlaybackStatus where
  | stopped
  | playing
  | paused
  deriving Repr, DecidableEq

/-- Transport state with per-status payload, as built by Sequencer.play,
Sequencer.pause and Sequencer.stop. -/
inductive TransportState where
  | stopped
  | playing (startBeat : ℚ) (startTime : ℚ)
  | paused (pausedBeat : ℚ)
  deriving Repr, DecidableEq

/-- The status field of a transport state. -/
def TransportState.status : TransportState → PlaybackStatus
  | .stopped => .stopped
  | .playing _ _ => .playing
  | .paused _ => .paused

/-- Sequencer configuration: stepsPerBeat (4 for 16th notes) and
beatsPerBar (4 for 4/4 time). -/
structure SequencerConfig where
  stepsPerBeat : ℕ
  beatsPerBar : ℕ
  deriving Repr, DecidableEq

/-- Voice playback command passed to IAudioEngine.playVoice. -/
structure VoiceConfig where
  sampleId : String
  startTime : ℚ
  gain : ℚ
  deriving Repr, DecidableEq

/-- Private state of the Sequencer class: the held Pattern, the transport
state, the current step cursor, the configuration, and the solo-set cache
of soloed track ids. -/
structure SequencerState where
  pattern : Option Pattern
  transportState : TransportState
  currentStep : ℤ
  config : SequencerConfig
  soloedTracks : Finset String
  deriving DecidableEq

namespace Sequencer

/-- Field initializers of the Sequencer class: no pattern, stopped,
step 0, empty solo set. -/
def mkInitial (config : SequencerConfig) : SequencerState :=
  { pattern := none
    transportState := .stopped
    currentStep := 0
    config := config
    soloedTracks := ∅ }

/-- Sequencer.setPattern: replace the held Pattern and reset the cursor. -/
def setPattern (st : SequencerState) (p : Pattern) : SequencerState :=
  { st with pattern := some p, currentStep := 0 }

/-- Sequencer.play: no-op when already playing or when no pattern is
loaded; otherwise becomes playing from beat 0 at the audio clock time
supplied as startTime (and starts the Scheduler). -/
def play (st : SequencerState) (startTime : ℚ) : SequencerState :=
  if st.transportState.status = .playing then st
  else
    match st.pattern with
    | none => st
    | some _ => { st with transportState := .playing 0 startTime }

/-- Sequencer.pause: no-op unless playing; otherwise becomes paused at the
beat read from the Scheduler, supplied as currentBeat. -/
def pause (st : SequencerState) (currentBeat : ℚ) : SequencerState :=
  if st.transportState.status ≠ .playing then st
  else { st with transportState := .paused currentBeat }

/-- Sequencer.stop: becomes stopped and resets the step cursor to 0. -/
def stop (st : SequencerState) : SequencerState :=
  { st with transportState := .stopped, currentStep := 0 }

/-- Sequencer.toggleMute: no-op without a pattern; otherwise flips the
muted flag of matching tracks and refreshes modifiedAt. -/
def toggleMute (st : SequencerState) (trackId : String) (now : ℕ) :
    SequencerState :=
  match st.pattern with
  | none => st
  | some p =>
    { st with
      pattern := some
        { p with
          tracks := p.tracks.map (toggleTrackMuteFn trackId)
          modifiedAt := now } }

/-- Sequencer.toggleSolo: no-op without a pattern or when no track has the
given id; otherwise updates the solo set from the found track's soloed flag
and flips the soloed flag of matching tracks, refreshing modifiedAt. -/
def toggleSolo (st : SequencerState) (trackId : String) (now : ℕ) :
    SequencerState :=
  match st.pattern with
  | none => st
  | some p =>
    match p.tracks.find? (fun t => t.id = trackId) with
    | none => st
    | some track =>
      { st with
        soloedTracks :=
          if track.soloed then st.soloedTracks.erase trackId
          else insert trackId st.soloedTracks
        pattern := some
          { p with
            tracks := p.tracks.map (toggleTrackSoloFn trackId)
            modifiedAt := now } }

/-- Sequencer.setTrackVolume: no-op without a pattern; otherwise replaces
the volume of matching tracks and refreshes modifiedAt. -/
def setTrackVolume (st : SequencerState) (trackId : String) (volume : ℚ)
    (now : ℕ) : SequencerState :=
  match st.pattern with
  | none => st
  | some p =>
    { st with
      pattern := some
        { p with
          tracks := p.tracks.map (setTrackVolumeFn trackId volume)
          modifiedAt := now } }

/-- Sequencer.toggleStep: no-op without a pattern; otherwise flips the
active flag of the addressed step and refreshes modifiedAt. -/
def toggleStep (st : SequencerState) (trackId : String) (stepIndex : ℕ)
    (now : ℕ) : SequencerState :=
  match st.pattern with
  | none => st
  | some p =>
    { st with
      pattern := some
        { p with
          tracks := p.tracks.map (toggleTrackStepFn trackId stepIndex)
          modifiedAt := now } }

/-- Sequencer.setStepVelocity: no-op without a pattern; otherwise replaces
the velocity of the addressed step and refreshes modifiedAt. -/
def setStepVelocity (st : SequencerState) (trackId : String) (stepIndex : ℕ)
    (velocity : ℚ) (now : ℕ) : SequencerState :=
  match st.pattern with
  | none => st
  | some p =>
    { st with
      pattern := some
        { p with
          tracks := p.tracks.map (setTrackStepVelocityFn trackId stepIndex velocity)
          modifiedAt := now } }

/-- Sequencer.destroy: stop, release the Pattern, clear the solo set. -/
def destroy (st : SequencerState) : SequencerState :=
  { stop st with pattern := none, soloedTracks := ∅ }

/-- The body of the track loop in Sequencer._onSchedulerTick: skip when
muted, skip when some track is soloed and this one is not, skip when the
addressed step is missing or inactive, otherwise issue a playVoice command
with gain = gainValue (volume * velocity). A JavaScript array read at a
negative or too large index yields undefined, modelled as none. -/
def trackTickCommand (hasSoloedTracks : Bool) (step : ℤ) (time : ℚ)
    (track : Track) : Option VoiceConfig :=
  if track.muted then none
  else if hasSoloedTracks && !track.soloed then none
  else
    match (if 0 ≤ step then track.steps.get? step.toNat else none) with
    | none => none
    | some stepData =>
      if !stepData.active then none
      else some
        { sampleId := track.sampleId
          startTime := time
          gain := gainValue (track.volume * stepData.velocity) }

/-- Sequencer._onSchedulerTick: bail out unless a pattern is held and the
transport is playing; otherwise compute the step from the beat position,
update the current step cursor, and run the track loop in pattern order.
Returns the new state and the issued commands, each tagged with the track
whose iteration issued it. -/
def onSchedulerTick (st : SequencerState) (time beat : ℚ) :
    SequencerState × List (Track × VoiceConfig) :=
  match st.pattern with
  | none => (st, [])
  | some p =>
    if st.transportState.status ≠ .playing then (st, [])
    else
      let stepInSequence : ℤ := ⌊beat * (st.config.stepsPerBeat : ℚ)⌋
      let step : ℤ := Int.tmod stepInSequence (p.length : ℤ)
      let hasSoloedTracks : Bool := decide (0 < st.soloedTracks.card)
      ({ st with currentStep := step },
        p.tracks.filterMap fun track =>
          (trackTickCommand hasSoloedTracks step time track).map
            fun c => (track, c))

end Sequencer

/-- Unfolding of the tick handler in the playing state: the cursor becomes
the wrapped step index and the commands are the filterMap of the per-track
loop body over the tracks in pattern order. -/
theorem onSchedulerTick_playing (st : SequencerState) (p : Pattern)
    (time beat : ℚ) (hp : st.pattern = some p)
    (hplay : st.transportState.status = .playing) :
    Sequencer.onSchedulerTick st time beat =
      ({ st with
          currentStep :=
            (⌊beat * (st.config.stepsPerBeat : ℚ)⌋).tmod (p.length : ℤ) },
        p.tracks.filterMap fun track =>
          (Sequencer.trackTickCommand (decide (0 < st.soloedTracks.card))
              ((⌊beat * (st.config.stepsPerBeat : ℚ)⌋).tmod (p.length : ℤ))
              time track).map
            fun c => (track, c)) := by
  simp only [Sequencer.onSchedulerTick, hp, hplay, ne_eq, not_true_eq_false,
    if_false]

/-- Membership in the tick output characterised by the per-track command. -/
theorem mem_tick_output (st : SequencerState) (p : Pattern) (time beat : ℚ)
    (hp : st.pattern = some p) (hplay : st.transportState.status = .playing)
    (tr : Track) (c : VoiceConfig) :
    (tr, c) ∈ (Sequencer.onSchedulerTick st time beat).2 ↔
      tr ∈ p.tracks ∧
        Sequencer.trackTickCommand (decide (0 < st.soloedTracks.card))
          ((⌊beat * (st.config.stepsPerBeat : ℚ)⌋).tmod (p.length : ℤ))
          time tr = some c := by
  rw [onSchedulerTick_playing st p time beat hp hplay]
  simp only [List.mem_filterMap, Option.map_eq_some', Prod.mk.injEq]
  constructor
  · rintro ⟨a, ha, v, hv, rfl, rfl⟩
    exact ⟨ha, hv⟩
  · rintro ⟨htr, hc⟩
    exact ⟨tr, htr, c, hc, rfl, rfl⟩

/-- C9: when the transport is not playing the tick handler issues no voice
command and leaves the whole state, in particular the current-step cursor,
unchanged. -/
theorem spec_C9_tick_ignored_when_not_playing (st : SequencerState)
    (time beat : ℚ) (h : st.transportState.status ≠ .playing) :
    Sequencer.onSchedulerTick st time beat = (st, []) := by
  unfold Sequencer.onSchedulerTick
  split
  · rfl
  · rw [if_pos h]

/-- Witness for C9: a stopped sequencer holding a pattern ignores a tick. -/
theorem spec_C9_tick_ignored_when_not_playing_witness :
    Sequencer.onSchedulerTick
      { pattern := none
        transportState := .paused 2
        currentStep := 3
        config := { stepsPerBeat := 4, beatsPerBar := 4 }
        soloedTracks := ∅ } 1 2 =
    ({ pattern := none
       transportState := .paused 2
       currentStep := 3
       config := { stepsPerBeat := 4, beatsPerBar := 4 }
       soloedTracks := ∅ }, []) := by
  apply spec_C9_tick_ignored_when_not_playing
  decide

/-- C7: on a playing tick the addressed step is
floor(beat times stepsPerBeat) taken modulo the pattern length, and the
externally observable current step cursor is set to exactly that value. -/
theorem spec_C7_loop_wrap (st : SequencerState) (p : Pattern) (time beat : ℚ)
    (hp : st.pattern = some p) (hplay : st.transportState.status = .playing)
    (hL : 0 < p.length) (hbeat : 0 ≤ beat) :
    ((Sequencer.onSchedulerTick st time beat).1).currentStep =
      ⌊beat * (st.config.stepsPerBeat : ℚ)⌋ % (p.length : ℤ) := by
  rw [onSchedulerTick_playing st p time beat hp hplay]
  exact Int.tmod_eq_emod
    (Int.floor_nonneg.mpr (by positivity)) (Int.ofNat_nonneg p.length)

/-- Concrete fixture: a playing state whose pattern has length 16. -/
def patternL16 : Pattern :=
  { id := "p16", name := "p16", tracks := [], length := 16
    timeSignature := { numerator := 4, denominator := 4 }
    createdAt := 0, modifiedAt := 0 }

/-- Concrete fixture: sequencer playing patternL16. -/
def stateL16 : SequencerState :=
  { pattern := some patternL16
    transportState := .playing 0 0
    currentStep := 5
    config := { stepsPerBeat := 4, beatsPerBar := 4 }
    soloedTracks := ∅ }

/-- Witness for C7: a pattern of length 16 ticking at beat 4 (step 16 in
sequence) wraps to current step 0. -/
theorem spec_C7_loop_wrap_witness :
    ((Sequencer.onSchedulerTick stateL16 0 4).1).currentStep = 0 :=
  (spec_C7_loop_wrap stateL16 patternL16 0 4 rfl rfl
    (by norm_num [patternL16]) (by norm_num)).trans
    (by norm_num [stateL16, patternL16])

/-- The clamp never returns a negative gain. -/
theorem gainValue_nonneg (x : ℚ) : 0 ≤ gainValue x := le_max_left 0 _

/-- The clamp never returns a gain above one. -/
theorem gainValue_le_one (x : ℚ) : gainValue x ≤ 1 :=
  max_le (by norm_num) (min_le_left 1 x)

/-- The clamp is the identity on values already in the unit interval. -/
theorem gainValue_eq_self (x : ℚ) (h0 : 0 ≤ x) (h1 : x ≤ 1) :
    gainValue x = x := by
  unfold gainValue
  rw [min_eq_right h1, max_eq_right h0]

/-- A muted track never produces a command in the track loop. -/
theorem trackTickCommand_muted (b : Bool) (s : ℤ) (t : ℚ) (tr : Track)
    (h : tr.muted = true) : Sequencer.trackTickCommand b s t tr = none := by
  simp [Sequencer.trackTickCommand, h]

/-- Any command issued by the track loop has its gain in the unit
interval. -/
theorem trackTickCommand_gain_bounds (b : Bool) (s : ℤ) (t : ℚ) (tr : Track)
    (c : VoiceConfig) (hc : Sequencer.trackTickCommand b s t tr = some c) :
    0 ≤ c.gain ∧ c.gain ≤ 1 := by
  unfold Sequencer.trackTickCommand at hc
  split at hc
  · simp at hc
  · split at hc
    · simp at hc
    · split at hc
      · simp at hc
      · split at hc
        · simp at hc
        · rw [Option.some.injEq] at hc
          rw [← hc]
          exact ⟨gainValue_nonneg _, gainValue_le_one _⟩

/-- The positive case of the track loop: an unmuted, solo-eligible track
with an active step at the addressed index issues exactly the playVoice
command with the clamped product gain. -/
theorem trackTickCommand_fires (b : Bool) (s : ℤ) (t : ℚ) (tr : Track)
    (sd : Step) (hm : tr.muted = false) (hsol : b = true → tr.soloed = true)
    (hlk : (if 0 ≤ s then tr.steps.get? s.toNat else none) = some sd)
    (hact : sd.active = true) :
    Sequencer.trackTickCommand b s t tr = some
      { sampleId := tr.sampleId
        startTime := t
        gain := gainValue (tr.volume * sd.velocity) } := by
  have hskip : (b && !tr.soloed) = false := by
    cases b with
    | false => rfl
    | true => simp [hsol rfl]
  unfold Sequencer.trackTickCommand
  rw [if_neg (by simp [hm]), if_neg (by simp [hskip]), hlk]
  simp [hact]

/-- C5: a muted track with an active step at the addressed index issues no
voice trigger on a tick addressing that index, even when it is soloed. -/
theorem spec_C5_mute_precedence (st : SequencerState) (p : Pattern)
    (A : Track) (time beat : ℚ) (i : ℕ)
    (hp : st.pattern = some p) (hplay : st.transportState.status = .playing)
    (hA : A ∈ p.tracks) (hmut : A.muted = true) (hsol : A.soloed = true)
    (hi : (⌊beat * (st.config.stepsPerBeat : ℚ)⌋).tmod (p.length : ℤ) = (i : ℤ))
    (hact : ∃ sd, A.steps.get? i = some sd ∧ sd.active = true) :
    ∀ c : VoiceConfig, (A, c) ∉ (Sequencer.onSchedulerTick st time beat).2 := by
  intro c hmem
  rw [mem_tick_output st p time beat hp hplay] at hmem
  obtain ⟨-, hc⟩ := hmem
  rw [trackTickCommand_muted _ _ _ _ hmut] at hc
  exact Option.noConfusion hc

/-- Concrete fixture: a muted and soloed track with an active first step. -/
def mutedSoloTrack : Track :=
  { id := "m", name := "M", sampleId := "m"
    steps := [{ active := true, velocity := 1 }]
    volume := 1, muted := true, soloed := true, color := "" }

/-- Concrete fixture: pattern holding only mutedSoloTrack. -/
def mutedSoloPattern : Pattern :=
  { id := "pm", name := "pm", tracks := [mutedSoloTrack], length := 1
    timeSignature := { numerator := 4, denominator := 4 }
    createdAt := 0, modifiedAt := 0 }

/-- Concrete fixture: playing sequencer holding mutedSoloPattern. -/
def mutedSoloState : SequencerState :=
  { pattern := some mutedSoloPattern
    transportState := .playing 0 0
    currentStep := 0
    config := { stepsPerBeat := 4, beatsPerBar := 4 }
    soloedTracks := ∅ }

/-- Witness for C5: the muted soloed track stays silent on the tick that
addresses its active step 0. -/
theorem spec_C5_mute_precedence_witness :
    (mutedSoloTrack, { sampleId := "m", startTime := 0, gain := 1 : VoiceConfig }) ∉
      (Sequencer.onSchedulerTick mutedSoloState 0 0).2 :=
  spec_C5_mute_precedence mutedSoloState mutedSoloPattern mutedSoloTrack 0 0 0
    rfl rfl (by simp [mutedSoloPattern]) rfl rfl
    (by norm_num [mutedSoloState, mutedSoloPattern])
    ⟨{ active := true, velocity := 1 }, rfl, rfl⟩ _

/-- C6: an active, unmuted, solo-eligible step triggers with gain exactly
track.volume times step.velocity when both lie in [0,1], and every gain the
tick handler ever emits lies in [0,1]. -/
theorem spec_C6_gain_law (st : SequencerState) (p : Pattern) (tr : Track)
    (time beat : ℚ) (sd : Step)
    (hp : st.pattern = some p) (hplay : st.transportState.status = .playing)
    (htr : tr ∈ p.tracks) (hm : tr.muted = false)
    (hsol : decide (0 < st.soloedTracks.card) = true → tr.soloed = true)
    (hlk : (if 0 ≤ (⌊beat * (st.config.stepsPerBeat : ℚ)⌋).tmod (p.length : ℤ) then
        tr.steps.get? ((⌊beat * (st.config.stepsPerBeat : ℚ)⌋).tmod (p.length : ℤ)).toNat
      else none) = some sd)
    (hact : sd.active = true)
    (hv0 : 0 ≤ tr.volume) (hv1 : tr.volume ≤ 1)
    (hw0 : 0 ≤ sd.velocity) (hw1 : sd.velocity ≤ 1) :
    (tr, { sampleId := tr.sampleId, startTime := time,
           gain := tr.volume * sd.velocity }) ∈
      (Sequencer.onSchedulerTick st time beat).2 ∧
    0 ≤ tr.volume * sd.velocity ∧ tr.volume * sd.velocity ≤ 1 ∧
    ∀ x ∈ (Sequencer.onSchedulerTick st time beat).2,
      0 ≤ x.2.gain ∧ x.2.gain ≤ 1 := by
  have h0 : 0 ≤ tr.volume * sd.velocity := mul_nonneg hv0 hw0
  have h1 : tr.volume * sd.velocity ≤ 1 := mul_le_one₀ hv1 hw0 hw1
  refine ⟨?_, h0, h1, ?_⟩
  · rw [mem_tick_output st p time beat hp hplay]
    refine ⟨htr, ?_⟩
    rw [trackTickCommand_fires _ _ _ _ sd hm hsol hlk hact,
      gainValue_eq_self _ h0 h1]
  · intro x hx
    obtain ⟨tr2, c2⟩ := x
    rw [mem_tick_output st p time beat hp hplay] at hx
    exact trackTickCommand_gain_bounds _ _ _ _ _ hx.2

/-- Concrete fixture: an eligible track with volume 1/2 and an active first
step of velocity 4/5. -/
def gainTrack : Track :=
  { id := "g", name := "G", sampleId := "g"
    steps := [{ active := true, velocity := 4/5 }]
    volume := 1/2, muted := false, soloed := false, color := "" }

/-- Concrete fixture: pattern holding only gainTrack. -/
def gainPattern : Pattern :=
  { id := "pg", name := "pg", tracks := [gainTrack], length := 1
    timeSignature := { numerator := 4, denominator := 4 }
    createdAt := 0, modifiedAt := 0 }

/-- Concrete fixture: playing sequencer holding gainPattern. -/
def gainState : SequencerState :=
  { pattern := some gainPattern
    transportState := .playing 0 0
    currentStep := 0
    config := { stepsPerBeat := 4, beatsPerBar := 4 }
    soloedTracks := ∅ }

/-- Witness for C6: the emitted gain is 1/2 times 4/5. -/
theorem spec_C6_gain_law_witness :
    (gainTrack, ({ sampleId := "g", startTime := 0, gain := (1/2 : ℚ) * (4/5) } : VoiceConfig)) ∈
      (Sequencer.onSchedulerTick gainState 0 0).2 ∧
    0 ≤ (1/2 : ℚ) * (4/5) ∧ (1/2 : ℚ) * (4/5) ≤ 1 ∧
    ∀ x ∈ (Sequencer.onSchedulerTick gainState 0 0).2,
      0 ≤ x.2.gain ∧ x.2.gain ≤ 1 := by
  exact spec_C6_gain_law gainState gainPattern gainTrack 0 0
    { active := true, velocity := 4/5 } rfl rfl (by simp [gainPattern]) rfl
    (by intro h; simp [gainState] at h)
    (by norm_num [gainState, gainPattern, gainTrack]) rfl
    (by norm_num [gainTrack]) (by norm_num [gainTrack])
    (by norm_num) (by norm_num)

/-- A track whose addressed step is missing produces no command. -/
theorem trackTickCommand_miss (b : Bool) (s : ℤ) (t : ℚ) (tr : Track)
    (hmiss : (if 0 ≤ s then tr.steps.get? s.toNat else none) = none) :
    Sequencer.trackTickCommand b s t tr = none := by
  unfold Sequencer.trackTickCommand
  split
  · rfl
  · split
    · rfl
    · rw [hmiss]

/-- Erasing an element that the filterMap drops leaves the result
unchanged. -/
theorem filterMap_eraseIdx {α β : Type} (f : α → Option β) :
    ∀ (l : List α) (k : ℕ) (hk : k < l.length),
      f (l.get ⟨k, hk⟩) = none →
      l.filterMap f = (l.eraseIdx k).filterMap f := by
  intro l
  induction l with
  | nil =>
    intro k hk
    simp at hk
  | cons a tl ih =>
    intro k hk hnone
    cases k with
    | zero =>
      simp only [List.get] at hnone
      simp [List.eraseIdx_cons_zero, List.filterMap_cons, hnone]
    | succ j =>
      have hj : j < tl.length := by simpa using hk
      have hrec := ih j hj (by simpa using hnone)
      rw [List.eraseIdx_cons_succ, List.filterMap_cons, List.filterMap_cons, hrec]

/-- C10: a track whose steps array lacks the addressed index is skipped as
if the step were inactive: it contributes no command, the handler does not
fail, and the output is exactly that of the remaining tracks. -/
theorem spec_C10_missing_step_skipped (st : SequencerState) (p : Pattern)
    (time beat : ℚ) (k : ℕ) (hk : k < p.tracks.length)
    (hp : st.pattern = some p) (hplay : st.transportState.status = .playing)
    (hmiss : (if 0 ≤ (⌊beat * (st.config.stepsPerBeat : ℚ)⌋).tmod (p.length : ℤ) then
        (p.tracks.get ⟨k, hk⟩).steps.get?
          ((⌊beat * (st.config.stepsPerBeat : ℚ)⌋).tmod (p.length : ℤ)).toNat
      else none) = none) :
    (∀ c : VoiceConfig,
      (p.tracks.get ⟨k, hk⟩, c) ∉ (Sequencer.onSchedulerTick st time beat).2) ∧
    (Sequencer.onSchedulerTick st time beat).2 =
      (p.tracks.eraseIdx k).filterMap (fun track =>
        (Sequencer.trackTickCommand (decide (0 < st.soloedTracks.card))
            ((⌊beat * (st.config.stepsPerBeat : ℚ)⌋).tmod (p.length : ℤ))
            time track).map
          fun c => (track, c)) := by
  constructor
  · intro c hmem
    rw [mem_tick_output st p time beat hp hplay] at hmem
    rw [trackTickCommand_miss _ _ _ _ hmiss] at hmem
    exact Option.noConfusion hmem.2
  · rw [onSchedulerTick_playing st p time beat hp hplay]
    exact filterMap_eraseIdx _ p.tracks k hk
      (by rw [trackTickCommand_miss _ _ _ _ hmiss]; rfl)

/-- Concrete fixture: a track with an empty steps array. -/
def shortTrack : Track :=
  { id := "s", name := "S", sampleId := "s", steps := []
    volume := 1, muted := false, soloed := false, color := "" }

/-- Concrete fixture: a track with four steps, the first active. -/
def fullTrack : Track :=
  { id := "f", name := "F", sampleId := "f"
    steps := [{ active := true, velocity := 1 }, { active := false, velocity := 1 },
              { active := false, velocity := 1 }, { active := false, velocity := 1 }]
    volume := 1, muted := false, soloed := false, color := "" }

/-- Concrete fixture: pattern of length 4 with the short and full tracks. -/
def shortPattern : Pattern :=
  { id := "ps", name := "ps", tracks := [shortTrack, fullTrack], length := 4
    timeSignature := { numerator := 4, denominator := 4 }
    createdAt := 0, modifiedAt := 0 }

/-- Concrete fixture: playing sequencer holding shortPattern. -/
def shortState : SequencerState :=
  { pattern := some shortPattern
    transportState := .playing 0 0
    currentStep := 0
    config := { stepsPerBeat := 4, beatsPerBar := 4 }
    soloedTracks := ∅ }

/-- Witness for C10: the empty-steps track is skipped while the full track
is still processed. -/
theorem spec_C10_missing_step_skipped_witness :
    (∀ c : VoiceConfig,
      (shortPattern.tracks.get ⟨0, by norm_num [shortPattern]⟩, c) ∉
        (Sequencer.onSchedulerTick shortState 0 0).2) ∧
    (Sequencer.onSchedulerTick shortState 0 0).2 =
      (shortPattern.tracks.eraseIdx 0).filterMap (fun track =>
        (Sequencer.trackTickCommand
            (decide (0 < shortState.soloedTracks.card))
            ((⌊(0 : ℚ) * (shortState.config.stepsPerBeat : ℚ)⌋).tmod
              (shortPattern.length : ℤ)) 0 track).map
          fun c => (track, c)) := by
  exact spec_C10_missing_step_skipped shortState shortPattern 0 0 0
    (by norm_num [shortPattern]) rfl rfl
    (by norm_num [shortState, shortPattern, shortTrack])

/-- The set of ids of soloed tracks in a track list. -/
def soloIdsOf (tracks : List Track) : Finset String :=
  ((tracks.filter fun t => t.soloed).map fun t => t.id).toFinset

/-- The set of ids of soloed tracks of a Pattern. -/
def patternSoloIds (p : Pattern) : Finset String := soloIdsOf p.tracks

/-- Membership characterisation of the soloed-id set. -/
theorem mem_soloIdsOf (x : String) (l : List Track) :
    x ∈ soloIdsOf l ↔ ∃ t, (t ∈ l ∧ t.soloed = true) ∧ t.id = x := by
  simp [soloIdsOf, List.mem_filter]

/-- If the solo guard is on, any track the loop triggers is soloed. -/
theorem trackTickCommand_soloed (b : Bool) (s : ℤ) (t : ℚ) (tr : Track)
    (c : VoiceConfig) (hb : b = true)
    (hc : Sequencer.trackTickCommand b s t tr = some c) : tr.soloed = true := by
  by_cases hs : tr.soloed = true
  · exact hs
  · have hsf : tr.soloed = false := by simpa using hs
    simp [Sequencer.trackTickCommand, hb, hsf] at hc

/-- Concrete fixture: a soloed-flagged track that is not in the solo set. -/
def soloGhostTrack : Track :=
  { id := "b", name := "B", sampleId := "b"
    steps := [{ active := true, velocity := 1 }]
    volume := 1, muted := false, soloed := true, color := "" }

/-- Concrete fixture: pattern holding only soloGhostTrack. -/
def soloGhostPattern : Pattern :=
  { id := "pb", name := "pb", tracks := [soloGhostTrack], length := 1
    timeSignature := { numerator := 4, denominator := 4 }
    createdAt := 0, modifiedAt := 0 }

/-- Concrete fixture: playing sequencer holding soloGhostPattern while the
private solo set contains only the id a, which names no track. -/
def soloGhostState : SequencerState :=
  { pattern := some soloGhostPattern
    transportState := .playing 0 0
    currentStep := 0
    config := { stepsPerBeat := 4, beatsPerBar := 4 }
    soloedTracks := {"a"} }

/-- The ghost track does trigger on the tick at beat 0. -/
theorem soloGhostTrack_triggers :
    (soloGhostTrack, ({ sampleId := "b", startTime := 0, gain := 1 } : VoiceConfig)) ∈
      (Sequencer.onSchedulerTick soloGhostState 0 0).2 := by
  rw [mem_tick_output soloGhostState soloGhostPattern 0 0 rfl rfl]
  constructor
  · simp [soloGhostPattern]
  · rw [trackTickCommand_fires _ _ _ _ { active := true, velocity := 1 } rfl
      (fun _ => rfl)
      (by norm_num [soloGhostState, soloGhostPattern, soloGhostTrack]) rfl]
    norm_num [gainValue, soloGhostTrack]

/-- C2 counterexample: with a non-empty solo set and the transport playing,
a track whose id lies outside the solo set still triggers, because the
tick handler tests the track's own soloed flag, not solo-set membership. -/
theorem spec_C2_solo_isolation_counterexample :
    0 < soloGhostState.soloedTracks.card ∧
    soloGhostState.transportState.status = .playing ∧
    soloGhostTrack.id ∉ soloGhostState.soloedTracks ∧
    (soloGhostTrack, ({ sampleId := "b", startTime := 0, gain := 1 } : VoiceConfig)) ∈
      (Sequencer.onSchedulerTick soloGhostState 0 0).2 :=
  ⟨by decide, rfl, by decide, soloGhostTrack_triggers⟩

/-- C2 amended: when the solo set is non-empty on a playing tick, every
track that triggers has soloed = true; consequently, whenever the solo set
agrees with the Pattern's soloed track ids, no track outside the solo set
triggers. -/
theorem spec_C2_solo_isolation_amended (st : SequencerState) (p : Pattern)
    (time beat : ℚ) (hp : st.pattern = some p)
    (hplay : st.transportState.status = .playing)
    (hns : st.soloedTracks.Nonempty) :
    ∀ tr c, (tr, c) ∈ (Sequencer.onSchedulerTick st time beat).2 →
      tr.soloed = true ∧
      (patternSoloIds p = st.soloedTracks → tr.id ∈ st.soloedTracks) := by
  intro tr c hmem
  rw [mem_tick_output st p time beat hp hplay] at hmem
  obtain ⟨htr, hc⟩ := hmem
  have hb : decide (0 < st.soloedTracks.card) = true := by
    simpa [Finset.card_pos] using hns
  have hsol : tr.soloed = true := trackTickCommand_soloed _ _ _ _ _ hb hc
  refine ⟨hsol, fun hsync => ?_⟩
  rw [← hsync]
  exact (mem_soloIdsOf tr.id p.tracks).mpr ⟨tr, ⟨htr, hsol⟩, rfl⟩

/-- Witness for the amended C2 at the ghost-track state. -/
theorem spec_C2_solo_isolation_amended_witness :
    soloGhostTrack.soloed = true ∧
    (patternSoloIds soloGhostPattern = soloGhostState.soloedTracks →
      soloGhostTrack.id ∈ soloGhostState.soloedTracks) :=
  spec_C2_solo_isolation_amended soloGhostState soloGhostPattern 0 0 rfl rfl
    (by decide) soloGhostTrack
    { sampleId := "b", startTime := 0, gain := 1 } soloGhostTrack_triggers

/-- The solo-set invariant of C3: the private solo set equals the set of
soloed track ids of the currently held Pattern (empty when none is held). -/
def soloInvariant (st : SequencerState) : Prop :=
  st.soloedTracks =
    match st.pattern with
    | none => (∅ : Finset String)
    | some p => patternSoloIds p

/-- C3 counterexample: the invariant holds in the initial state but is not
preserved by setPattern, which installs a Pattern carrying a soloed track
without resynchronising the solo set. -/
theorem spec_C3_solo_sync_counterexample :
    soloInvariant (Sequencer.mkInitial { stepsPerBeat := 4, beatsPerBar := 4 }) ∧
    ¬ soloInvariant (Sequencer.setPattern
        (Sequencer.mkInitial { stepsPerBeat := 4, beatsPerBar := 4 })
        soloGhostPattern) := by
  constructor
  · rfl
  · intro h
    have h2 : (∅ : Finset String) = patternSoloIds soloGhostPattern := h
    exact absurd h2 (by decide)

/-- The per-track mute function keeps id and soloed. -/
theorem toggleTrackMuteFn_id_soloed (tid : String) (tr : Track) :
    (toggleTrackMuteFn tid tr).id = tr.id ∧
    (toggleTrackMuteFn tid tr).soloed = tr.soloed := by
  unfold toggleTrackMuteFn
  split <;> exact ⟨rfl, rfl⟩

/-- The per-track volume function keeps id and soloed. -/
theorem setTrackVolumeFn_id_soloed (tid : String) (v : ℚ) (tr : Track) :
    (setTrackVolumeFn tid v tr).id = tr.id ∧
    (setTrackVolumeFn tid v tr).soloed = tr.soloed := by
  unfold setTrackVolumeFn
  split <;> exact ⟨rfl, rfl⟩

/-- The per-track step-toggle function keeps id and soloed. -/
theorem toggleTrackStepFn_id_soloed (tid : String) (i : ℕ) (tr : Track) :
    (toggleTrackStepFn tid i tr).id = tr.id ∧
    (toggleTrackStepFn tid i tr).soloed = tr.soloed := by
  unfold toggleTrackStepFn
  split <;> exact ⟨rfl, rfl⟩

/-- The per-track velocity function keeps id and soloed. -/
theorem setTrackStepVelocityFn_id_soloed (tid : String) (i : ℕ) (v : ℚ)
    (tr : Track) :
    (setTrackStepVelocityFn tid i v tr).id = tr.id ∧
    (setTrackStepVelocityFn tid i v tr).soloed = tr.soloed := by
  unfold setTrackStepVelocityFn
  split <;> exact ⟨rfl, rfl⟩

/-- The per-track solo function keeps id. -/
theorem toggleTrackSoloFn_id (tid : String) (tr : Track) :
    (toggleTrackSoloFn tid tr).id = tr.id := by
  unfold toggleTrackSoloFn
  split <;> rfl

/-- The per-track solo function flips soloed exactly on matching ids. -/
theorem toggleTrackSoloFn_soloed (tid : String) (tr : Track) :
    (toggleTrackSoloFn tid tr).soloed =
      if tr.id = tid then !tr.soloed else tr.soloed := by
  unfold toggleTrackSoloFn
  split <;> rfl

/-- Mapping an id- and soloed-preserving function leaves the soloed-id set
unchanged. -/
theorem soloIdsOf_map (g : Track → Track) (hid : ∀ t, (g t).id = t.id)
    (hsol : ∀ t, (g t).soloed = t.soloed) (l : List Track) :
    soloIdsOf (l.map g) = soloIdsOf l := by
  ext x
  rw [mem_soloIdsOf, mem_soloIdsOf]
  constructor
  · rintro ⟨t, ⟨h2, hs⟩, hx⟩
    rw [List.mem_map] at h2
    obtain ⟨t0, ht0, rfl⟩ := h2
    rw [hsol t0] at hs
    rw [hid t0] at hx
    exact ⟨t0, ⟨ht0, hs⟩, hx⟩
  · rintro ⟨t, ⟨h2, hs⟩, hx⟩
    refine ⟨g t, ⟨List.mem_map_of_mem g h2, ?_⟩, ?_⟩
    · rw [hsol t]
      exact hs
    · rw [hid t]
      exact hx

/-- Membership in the soloed-id set after the solo toggle map. -/
theorem mem_soloIdsOf_map_solo (x tid : String) (l : List Track) :
    x ∈ soloIdsOf (l.map (toggleTrackSoloFn tid)) ↔
      ∃ t, (t ∈ l ∧ (if t.id = tid then !t.soloed else t.soloed) = true) ∧
        t.id = x := by
  rw [mem_soloIdsOf]
  constructor
  · rintro ⟨t, ⟨h2, hs⟩, hx⟩
    rw [List.mem_map] at h2
    obtain ⟨t0, ht0, rfl⟩ := h2
    rw [toggleTrackSoloFn_soloed] at hs
    rw [toggleTrackSoloFn_id] at hx
    exact ⟨t0, ⟨ht0, hs⟩, hx⟩
  · rintro ⟨t, ⟨h2, hs⟩, hx⟩
    refine ⟨toggleTrackSoloFn tid t, ⟨List.mem_map_of_mem _ h2, ?_⟩, ?_⟩
    · rw [toggleTrackSoloFn_soloed]
      exact hs
    · rw [toggleTrackSoloFn_id]
      exact hx

/-- An edit that maps an id- and soloed-preserving function over the tracks
preserves the solo-set invariant. -/
theorem soloInvariant_editMap (st : SequencerState) (p : Pattern)
    (g : Track → Track) (hid : ∀ t, (g t).id = t.id)
    (hsol : ∀ t, (g t).soloed = t.soloed) (hp : st.pattern = some p)
    (now : ℕ) (hinv : soloInvariant st) :
    soloInvariant
      { st with
        pattern := some { p with tracks := p.tracks.map g, modifiedAt := now } } := by
  have hbase : st.soloedTracks = soloIdsOf p.tracks := by
    have h := hinv
    unfold soloInvariant at h
    rw [hp] at h
    exact h
  show st.soloedTracks = patternSoloIds _
  unfold patternSoloIds
  rw [show ({ p with tracks := p.tracks.map g, modifiedAt := now } : Pattern).tracks
      = p.tracks.map g from rfl]
  rw [soloIdsOf_map g hid hsol]
  exact hbase

/-- toggleMute preserves the solo-set invariant. -/
theorem soloInvariant_toggleMute (st : SequencerState) (t : String) (now : ℕ)
    (hinv : soloInvariant st) :
    soloInvariant (Sequencer.toggleMute st t now) := by
  unfold Sequencer.toggleMute
  split
  · exact hinv
  · next p heq =>
    exact soloInvariant_editMap st p _
      (fun tr => (toggleTrackMuteFn_id_soloed t tr).1)
      (fun tr => (toggleTrackMuteFn_id_soloed t tr).2) heq now hinv

/-- Sequencer.toggleStep preserves the solo-set invariant. -/
theorem soloInvariant_toggleStep (st : SequencerState) (t : String) (i now : ℕ)
    (hinv : soloInvariant st) :
    soloInvariant (Sequencer.toggleStep st t i now) := by
  unfold Sequencer.toggleStep
  split
  · exact hinv
  · next p heq =>
    exact soloInvariant_editMap st p _
      (fun tr => (toggleTrackStepFn_id_soloed t i tr).1)
      (fun tr => (toggleTrackStepFn_id_soloed t i tr).2) heq now hinv

/-- Sequencer.setStepVelocity preserves the solo-set invariant. -/
theorem soloInvariant_setStepVelocity (st : SequencerState) (t : String)
    (i : ℕ) (v : ℚ) (now : ℕ) (hinv : soloInvariant st) :
    soloInvariant (Sequencer.setStepVelocity st t i v now) := by
  unfold Sequencer.setStepVelocity
  split
  · exact hinv
  · next p heq =>
    exact soloInvariant_editMap st p _
      (fun tr => (setTrackStepVelocityFn_id_soloed t i v tr).1)
      (fun tr => (setTrackStepVelocityFn_id_soloed t i v tr).2) heq now hinv

/-- Sequencer.setTrackVolume preserves the solo-set invariant. -/
theorem soloInvariant_setTrackVolume (st : SequencerState) (t : String)
    (v : ℚ) (now : ℕ) (hinv : soloInvariant st) :
    soloInvariant (Sequencer.setTrackVolume st t v now) := by
  unfold Sequencer.setTrackVolume
  split
  · exact hinv
  · next p heq =>
    exact soloInvariant_editMap st p _
      (fun tr => (setTrackVolumeFn_id_soloed t v tr).1)
      (fun tr => (setTrackVolumeFn_id_soloed t v tr).2) heq now hinv

/-- toggleSolo preserves the solo-set invariant on patterns whose track ids
are pairwise distinct. -/
theorem soloInvariant_toggleSolo (st : SequencerState) (t : String) (now : ℕ)
    (hwf : ∀ p, st.pattern = some p → (p.tracks.map Track.id).Nodup)
    (hinv : soloInvariant st) :
    soloInvariant (Sequencer.toggleSolo st t now) := by
  unfold Sequencer.toggleSolo
  split
  · exact hinv
  · next p heq =>
    split
    · exact hinv
    · next track hfind =>
      have hmem : track ∈ p.tracks := List.mem_of_find?_eq_some hfind
      have hidt : track.id = t := by simpa using List.find?_some hfind
      have hnodup := hwf p heq
      have hbase : st.soloedTracks = soloIdsOf p.tracks := by
        have h := hinv
        unfold soloInvariant at h
        rw [heq] at h
        exact h
      have huniq : ∀ t2 ∈ p.tracks, t2.id = t → t2 = track := by
        intro t2 h2 hid2
        exact List.inj_on_of_nodup_map hnodup h2 hmem (by rw [hid2, hidt])
      show (if track.soloed then st.soloedTracks.erase t
            else insert t st.soloedTracks) = patternSoloIds _
      unfold patternSoloIds
      by_cases hs : track.soloed = true
      · rw [if_pos hs]
        ext x
        rw [Finset.mem_erase, hbase, mem_soloIdsOf, mem_soloIdsOf_map_solo]
        constructor
        · rintro ⟨hxt, t2, ⟨h2, hsol2⟩, hx⟩
          refine ⟨t2, ⟨h2, ?_⟩, hx⟩
          rw [if_neg (by rw [hx]; exact hxt)]
          exact hsol2
        · rintro ⟨t2, ⟨h2, hsol2⟩, hx⟩
          by_cases ht2 : t2.id = t
          · exfalso
            have ht2eq : t2 = track := huniq t2 h2 ht2
            rw [if_pos ht2, ht2eq, hs] at hsol2
            simp at hsol2
          · refine ⟨by rw [← hx]; exact ht2, t2, ⟨h2, ?_⟩, hx⟩
            rwa [if_neg ht2] at hsol2
      · have hsf : track.soloed = false := by simpa using hs
        rw [if_neg (by simp [hsf])]
        ext x
        rw [Finset.mem_insert, hbase, mem_soloIdsOf, mem_soloIdsOf_map_solo]
        constructor
        · rintro (rfl | ⟨t2, ⟨h2, hsol2⟩, hx⟩)
          · refine ⟨track, ⟨hmem, ?_⟩, hidt⟩
            rw [if_pos hidt, hsf]
            rfl
          · by_cases ht2 : t2.id = t
            · exfalso
              have ht2eq : t2 = track := huniq t2 h2 ht2
              rw [ht2eq, hsf] at hsol2
              exact Bool.noConfusion hsol2
            · refine ⟨t2, ⟨h2, ?_⟩, hx⟩
              rw [if_neg ht2]
              exact hsol2
        · rintro ⟨t2, ⟨h2, hsol2⟩, hx⟩
          by_cases ht2 : t2.id = t
          · left
            rw [← hx, ht2]
          · right
            refine ⟨t2, ⟨h2, ?_⟩, hx⟩
            rwa [if_neg ht2] at hsol2

/-- play preserves the solo-set invariant. -/
theorem soloInvariant_play (st : SequencerState) (x : ℚ)
    (hinv : soloInvariant st) : soloInvariant (Sequencer.play st x) := by
  unfold Sequencer.play
  split
  · exact hinv
  · split
    · exact hinv
    · exact hinv

/-- pause preserves the solo-set invariant. -/
theorem soloInvariant_pause (st : SequencerState) (x : ℚ)
    (hinv : soloInvariant st) : soloInvariant (Sequencer.pause st x) := by
  unfold Sequencer.pause
  split
  · exact hinv
  · exact hinv

/-- C3 amended: the solo-set invariant holds initially and is preserved by
toggleSolo (on patterns with pairwise-distinct track ids), by toggleMute,
toggleStep, setStepVelocity, setTrackVolume, play, pause, stop and destroy;
setPattern preserves it exactly when the installed Pattern's soloed track
ids coincide with the current solo set (in particular the counterexample
shows it does not preserve it unconditionally). -/
theorem spec_C3_solo_sync_amended :
    (∀ cfg, soloInvariant (Sequencer.mkInitial cfg)) ∧
    (∀ st t now, (∀ p, st.pattern = some p → (p.tracks.map Track.id).Nodup) →
      soloInvariant st → soloInvariant (Sequencer.toggleSolo st t now)) ∧
    (∀ st t now, soloInvariant st →
      soloInvariant (Sequencer.toggleMute st t now)) ∧
    (∀ st t i now, soloInvariant st →
      soloInvariant (Sequencer.toggleStep st t i now)) ∧
    (∀ st t i v now, soloInvariant st →
      soloInvariant (Sequencer.setStepVelocity st t i v now)) ∧
    (∀ st t v now, soloInvariant st →
      soloInvariant (Sequencer.setTrackVolume st t v now)) ∧
    (∀ st x, soloInvariant st → soloInvariant (Sequencer.play st x)) ∧
    (∀ st x, soloInvariant st → soloInvariant (Sequencer.pause st x)) ∧
    (∀ st, soloInvariant st → soloInvariant (Sequencer.stop st)) ∧
    (∀ st, soloInvariant (Sequencer.destroy st)) ∧
    (∀ st p, soloInvariant st → patternSoloIds p = st.soloedTracks →
      soloInvariant (Sequencer.setPattern st p)) := by
  refine ⟨fun cfg => rfl,
    fun st t now hwf hinv => soloInvariant_toggleSolo st t now hwf hinv,
    fun st t now hinv => soloInvariant_toggleMute st t now hinv,
    fun st t i now hinv => soloInvariant_toggleStep st t i now hinv,
    fun st t i v now hinv => soloInvariant_setStepVelocity st t i v now hinv,
    fun st t v now hinv => soloInvariant_setTrackVolume st t v now hinv,
    fun st x hinv => soloInvariant_play st x hinv,
    fun st x hinv => soloInvariant_pause st x hinv,
    fun st hinv => hinv,
    fun st => rfl,
    fun st p hinv hswap => ?_⟩
  show st.soloedTracks = patternSoloIds p
  exact hswap.symm

/-- Witness for the amended C3: installing a Pattern with no soloed tracks
into the initial state keeps the invariant. -/
theorem spec_C3_solo_sync_amended_witness :
    soloInvariant (Sequencer.setPattern
      (Sequencer.mkInitial { stepsPerBeat := 4, beatsPerBar := 4 })
      patternL16) :=
  spec_C3_solo_sync_amended.2.2.2.2.2.2.2.2.2.2
    (Sequencer.mkInitial { stepsPerBeat := 4, beatsPerBar := 4 })
    patternL16 rfl (by decide)

/-- Concrete fixture: a plain unmuted track with id a. -/
def plainTrack : Track :=
  { id := "a", name := "A", sampleId := "a"
    steps := [{ active := false, velocity := 1 }]
    volume := 1, muted := false, soloed := false, color := "" }

/-- Concrete fixture: pattern holding only plainTrack, modifiedAt 0. -/
def plainPattern : Pattern :=
  { id := "pp", name := "pp", tracks := [plainTrack], length := 1
    timeSignature := { numerator := 4, denominator := 4 }
    createdAt := 0, modifiedAt := 0 }

/-- Concrete fixture: stopped sequencer holding plainPattern. -/
def plainState : SequencerState :=
  { pattern := some plainPattern
    transportState := .stopped
    currentStep := 0
    config := { stepsPerBeat := 4, beatsPerBar := 4 }
    soloedTracks := ∅ }

/-- C4 counterexample: toggleMute with an unknown trackId is not a no-op:
it swaps in a Pattern whose modifiedAt has been refreshed. -/
theorem spec_C4_unknown_id_counterexample :
    ("zz" ∉ plainPattern.tracks.map Track.id) ∧
    Sequencer.toggleMute plainState "zz" 1 ≠ plainState := by
  constructor
  · decide
  · decide

/-- C4 amended: with no Pattern loaded all five editing operations are
exact no-ops; with a Pattern loaded and an unknown trackId, toggleSolo is
an exact no-op while toggleMute, toggleStep, setStepVelocity and
setTrackVolume leave every observable component unchanged except that they
replace the Pattern by one equal in all fields but a refreshed
modifiedAt. -/
theorem spec_C4_unknown_id_amended :
    (∀ st t i v now, st.pattern = none →
      Sequencer.toggleStep st t i now = st ∧
      Sequencer.setStepVelocity st t i v now = st ∧
      Sequencer.setTrackVolume st t v now = st ∧
      Sequencer.toggleMute st t now = st ∧
      Sequencer.toggleSolo st t now = st) ∧
    (∀ st p t i v now, st.pattern = some p → t ∉ p.tracks.map Track.id →
      Sequencer.toggleSolo st t now = st ∧
      Sequencer.toggleMute st t now =
        { st with pattern := some { p with modifiedAt := now } } ∧
      Sequencer.toggleStep st t i now =
        { st with pattern := some { p with modifiedAt := now } } ∧
      Sequencer.setStepVelocity st t i v now =
        { st with pattern := some { p with modifiedAt := now } } ∧
      Sequencer.setTrackVolume st t v now =
        { st with pattern := some { p with modifiedAt := now } }) := by
  constructor
  · intro st t i v now hp
    refine ⟨?_, ?_, ?_, ?_, ?_⟩ <;>
      simp [Sequencer.toggleStep, Sequencer.setStepVelocity,
        Sequencer.setTrackVolume, Sequencer.toggleMute, Sequencer.toggleSolo,
        hp]
  · intro st p t i v now hp hid
    have hne : ∀ tr ∈ p.tracks, ¬ tr.id = t := fun tr htr habs =>
      hid (habs ▸ List.mem_map_of_mem Track.id htr)
    have hmapid : ∀ g : Track → Track, (∀ tr ∈ p.tracks, g tr = tr) →
        p.tracks.map g = p.tracks := fun g h =>
      (List.map_congr_left h).trans (List.map_id p.tracks)
    refine ⟨?_, ?_, ?_, ?_, ?_⟩
    · simp only [Sequencer.toggleSolo, hp]
      rw [List.find?_eq_none.mpr (by intro x hx; simpa using hne x hx)]
    · simp only [Sequencer.toggleMute, hp]
      rw [hmapid _ fun tr htr => by
        unfold toggleTrackMuteFn
        rw [if_neg (hne tr htr)]]
    · simp only [Sequencer.toggleStep, hp]
      rw [hmapid _ fun tr htr => by
        unfold toggleTrackStepFn
        rw [if_neg (hne tr htr)]]
    · simp only [Sequencer.setStepVelocity, hp]
      rw [hmapid _ fun tr htr => by
        unfold setTrackStepVelocityFn
        rw [if_neg (hne tr htr)]]
    · simp only [Sequencer.setTrackVolume, hp]
      rw [hmapid _ fun tr htr => by
        unfold setTrackVolumeFn
        rw [if_neg (hne tr htr)]]

/-- Witness for the amended C4: with no Pattern loaded, toggleStep is an
exact no-op. -/
theorem spec_C4_unknown_id_amended_witness :
    Sequencer.toggleStep
      (Sequencer.mkInitial { stepsPerBeat := 4, beatsPerBar := 4 }) "a" 0 3 =
      Sequencer.mkInitial { stepsPerBeat := 4, beatsPerBar := 4 } :=
  (spec_C4_unknown_id_amended.1
    (Sequencer.mkInitial { stepsPerBeat := 4, beatsPerBar := 4 })
    "a" 0 0 3 rfl).1
